import Mathlib

/-!
Shallow embedding of `demos/common/cpp/models/src/hpe_model_openpose.cpp`
(OpenPose human-pose-estimation model wrapper of Open Model Zoo).

Modelling conventions:
  - C++ `float`/`double` values are modelled by `ℚ` (the code performs only
    comparisons, additions and multiplications on them, so rationals are a
    faithful exact model);
  - `cv::Mat` single-channel float maps are modelled by `MatQ` (dimensions
    plus an entry function);
  - C++ exceptions are modelled by `Except PrepError`;
  - the `cv::parallel_for_` over heat maps is modelled by an explicit
    schedule: a list of indices processed left to right, so that statements
    about parallel scheduling can quantify over the execution order.

The functions `findPeaks` and `groupPeaksToPoses` live in
`openpose_decoder.cpp`, which is outside the provided sources; the driver
is therefore parameterised over them (`FindPeaksFn`, `GroupFn`): every
theorem below holds for an arbitrary pure extraction/grouping function.
-/

namespace HPE

/-- Model of a single-channel `cv::Mat` of floats: row/column counts and an
entry function. -/
structure MatQ where
  rows : ℕ
  cols : ℕ
  entry : ℕ → ℕ → ℚ

/-- Model of `Peak` from `openpose_decoder.h`: integer id, sub-pixel
position and heat-map score. -/
structure Peak where
  id : ℤ
  x : ℚ
  y : ℚ
  score : ℚ
deriving DecidableEq, Repr

/-- Model of `HumanPose`: a list of keypoint coordinates plus a score. -/
structure HumanPose where
  keypoints : List (ℚ × ℚ)
  score : ℚ
deriving DecidableEq, Repr

/-! ## Class constants (hpe_model_openpose.cpp lines 33-37) -/

/-- `const float HPEOpenPose::minPeaksDistance = 3.0f;` -/
def minPeaksDistance : ℚ := 3.0

/-- `const float HPEOpenPose::midPointsScoreThreshold = 0.05f;` -/
def midPointsScoreThreshold : ℚ := 0.05

/-- `const float HPEOpenPose::foundMidPointsRatioThreshold = 0.8f;` -/
def foundMidPointsRatioThreshold : ℚ := 0.8

/-- `const float HPEOpenPose::minSubsetScore = 0.2f;` -/
def minSubsetScore : ℚ := 0.2

/-! ## Global candidate-ID assignment (extractPoses, lines 214-220) -/

/-- One pass of `peak.id += peaksBefore` over a peak list. -/
def addPeakOffset (off : ℤ) (l : List Peak) : List Peak :=
  l.map fun p => { p with id := p.id + off }

/-- Tail of the ID-assignment loop: `peaksBefore` already holds the number
of candidates of all earlier keypoint types; each further list is offset by
the current `peaksBefore`, which then grows by that list's length. -/
def assignGo (peaksBefore : ℕ) : List (List Peak) → List (List Peak)
  | [] => []
  | l :: rest => addPeakOffset (peaksBefore : ℤ) l :: assignGo (peaksBefore + l.length) rest

/-- The full ID-assignment loop of `extractPoses` (lines 214-220): the loop
starts at `heatmapId = 1`, so the first list is left untouched and every
later list is offset by the total count of all earlier lists. -/
def assignGlobalIds : List (List Peak) → List (List Peak)
  | [] => []
  | first :: rest => first :: assignGo first.length rest

/-- Number of candidates of all keypoint types before type `i`. -/
def prefixCount (pk : List (List Peak)) (i : ℕ) : ℕ :=
  ((pk.take i).map List.length).sum

/-! ## Keypoint rescaling and result assembly (postprocess, lines 163-173) -/

/-- Body of the rescaling loop (lines 164-169): a keypoint different from
the sentinel `(-1,-1)` has its coordinates multiplied by the scale factors;
the sentinel is left untouched. -/
def rescaleKeypoint (sx sy : ℚ) (kp : ℚ × ℚ) : ℚ × ℚ :=
  if kp ≠ (-1, -1) then (kp.1 * sx, kp.2 * sy) else kp

/-- The rescaling loop applied to one pose (lines 163-170): only the
keypoints are updated, the score field is not mentioned by the loop. -/
def rescalePose (sx sy : ℚ) (p : HumanPose) : HumanPose :=
  { p with keypoints := p.keypoints.map (rescaleKeypoint sx sy) }

/-- The `result->poses.push_back(poses[i])` loop (lines 171-173), appending
each pose in index order to the result vector. -/
def pushPoses (poses : List HumanPose) (result : List HumanPose) : List HumanPose :=
  poses.foldl (fun acc p => acc ++ [p]) result

/-- Pose-list part of `postprocess` after `extractPoses` returned (lines
160-173): rescale every pose, then push them in order onto the initially
empty result vector. -/
def postprocessPoses (sx sy : ℚ) (poses : List HumanPose) : List HumanPose :=
  pushPoses (poses.map (rescalePose sx sy)) []

/-! ## The extractPoses driver (lines 207-224)

The per-type peak extraction `findPeaks` and the grouping
`groupPeaksToPoses` live in `openpose_decoder.cpp`, outside the provided
sources, so the driver is parameterised over them.  `findPeaks(heatMaps,
minPeaksDistance, peaksFromHeatMap, heatMapId, confidenceThreshold)` writes
only the slot `heatMapId`, computing its value from the (read-only) heat
maps; `groupPeaksToPoses` reads the peak table and the PAFs. -/

/-- Signature of the per-type peak extraction: heat maps, minimum peak
distance, heat-map index, confidence threshold, returning the peak list of
that keypoint type. -/
def FindPeaksFn : Type :=
  List MatQ → ℚ → ℕ → ℚ → List Peak

/-- Signature of `groupPeaksToPoses(peaksFromHeatMap, pafs, keypointsNumber,
midPointsScoreThreshold, foundMidPointsRatioThreshold, minJointsNumber,
minSubsetScore)`. -/
def GroupFn : Type :=
  List (List Peak) → List MatQ → ℕ → ℚ → ℚ → ℕ → ℚ → List HumanPose

/-- Explicit state of the decoding stage: the two (conceptually read-only)
map stacks and the per-type peak table being filled in. -/
@[ext]
structure DecoderState where
  heatMaps : List MatQ
  pafs : List MatQ
  peaksFromHeatMap : List (List Peak)

/-- One task of the `cv::parallel_for_` (lines 194-198): run `findPeaks` on
heat map `i`, writing only slot `i` of `peaksFromHeatMap`. -/
def stepFindPeaks (f : FindPeaksFn) (mpd ct : ℚ) (s : DecoderState) (i : ℕ) : DecoderState :=
  { s with peaksFromHeatMap := s.peaksFromHeatMap.set i (f s.heatMaps mpd i ct) }

/-- The parallel peak-extraction stage (lines 210-213): the peak table is
initialised to `heatMaps.size()` empty lists, then the tasks of the range
run in some schedule `order`. -/
def runFindPeaksPar (f : FindPeaksFn) (mpd ct : ℚ) (order : List ℕ) (s0 : DecoderState) :
    DecoderState :=
  order.foldl (stepFindPeaks f mpd ct)
    { s0 with peaksFromHeatMap := List.replicate s0.heatMaps.length [] }

/-- The sequential global-ID-assignment stage (lines 214-220). -/
def stepAssignIds (s : DecoderState) : DecoderState :=
  { s with peaksFromHeatMap := assignGlobalIds s.peaksFromHeatMap }

/-- The whole `extractPoses` body with all tunable constants explicit,
returning the final decoder state together with the grouped poses
(lines 210-224). -/
def extractPosesStateWith (f : FindPeaksFn) (g : GroupFn) (ct : ℚ) (K : ℕ)
    (mpd mpst fmrt : ℚ) (mjn : ℕ) (mss : ℚ) (order : List ℕ) (s0 : DecoderState) :
    DecoderState × List HumanPose :=
  (stepAssignIds (runFindPeaksPar f mpd ct order s0),
   g (stepAssignIds (runFindPeaksPar f mpd ct order s0)).peaksFromHeatMap
     (stepAssignIds (runFindPeaksPar f mpd ct order s0)).pafs K mpst fmrt mjn mss)

/-- `extractPoses` as written: the class constants (lines 34-37) are the
arguments passed to peak suppression and to `groupPeaksToPoses`. -/
def extractPosesState (f : FindPeaksFn) (g : GroupFn) (ct : ℚ) (K mjn : ℕ)
    (order : List ℕ) (s0 : DecoderState) : DecoderState × List HumanPose :=
  extractPosesStateWith f g ct K minPeaksDistance midPointsScoreThreshold
    foundMidPointsRatioThreshold mjn minSubsetScore order s0

/-- Generic model of a loop of independent slot writes: process the indices
of `order` left to right, writing value `v i` into slot `i`. -/
def writeEach {α : Type} (v : ℕ → α) (init : List α) (order : List ℕ) : List α :=
  order.foldl (fun acc i => acc.set i (v i)) init

/-! ## Helper lemmas -/

theorem addPeakOffset_length (off : ℤ) (l : List Peak) :
    (addPeakOffset off l).length = l.length := by
  simp [addPeakOffset]

theorem assignGo_length (b : ℕ) (pk : List (List Peak)) :
    (assignGo b pk).length = pk.length := by
  induction pk generalizing b with
  | nil => rfl
  | cons l rest ih => simp [assignGo, ih]

theorem assignGlobalIds_length (pk : List (List Peak)) :
    (assignGlobalIds pk).length = pk.length := by
  cases pk with
  | nil => rfl
  | cons first rest => simp [assignGlobalIds, assignGo_length]

theorem assignGo_getD (b : ℕ) (pk : List (List Peak)) (i : ℕ) (h : i < pk.length) :
    (assignGo b pk).getD i [] = addPeakOffset ((b + prefixCount pk i : ℕ) : ℤ) (pk.getD i []) := by
  induction pk generalizing b i with
  | nil => simp at h
  | cons l rest ih =>
    cases i with
    | zero => simp [assignGo, prefixCount]
    | succ j =>
      have hj : j < rest.length := by simpa using h
      have := ih (b + l.length) j hj
      simp only [assignGo, List.getD_cons_succ, this, prefixCount, List.take_succ_cons,
        List.map_cons, List.sum_cons]
      ring_nf

theorem assignGlobalIds_getD (pk : List (List Peak)) (i : ℕ) (h : i < pk.length) :
    (assignGlobalIds pk).getD i []
      = addPeakOffset ((prefixCount pk i : ℕ) : ℤ) (pk.getD i []) := by
  cases pk with
  | nil => simp at h
  | cons first rest =>
    cases i with
    | zero =>
      have : addPeakOffset ((0 : ℕ) : ℤ) first = first := by
        simp [addPeakOffset]
      simpa [assignGlobalIds, prefixCount] using this.symm
    | succ j =>
      have hj : j < rest.length := by simpa using h
      have := assignGo_getD first.length rest j hj
      simp only [assignGlobalIds, List.getD_cons_succ, this, prefixCount,
        List.take_succ_cons, List.map_cons, List.sum_cons]

/-- Claim statement helper: the list of ids of a peak list. -/
def idsOf (l : List Peak) : List ℤ :=
  l.map Peak.id

theorem idsOf_addPeakOffset (off : ℤ) (l : List Peak) :
    idsOf (addPeakOffset off l) = (idsOf l).map (· + off) := by
  simp [idsOf, addPeakOffset]

/-- C1: after the ID-assignment loop of `extractPoses`, if keypoint type `i`
produced `n_i` candidates locally numbered `0..n_i - 1`, its candidates
carry exactly the contiguous global ID range starting at the sum of the
counts of all earlier types: ids `prefixCount pk i + 0, ..., prefixCount pk
i + n_i - 1`, in order. -/
theorem extractPoses_global_id_ranges (pk : List (List Peak))
    (hloc : ∀ i, i < pk.length →
      idsOf (pk.getD i []) = (List.range (pk.getD i []).length).map (fun j => (j : ℤ))) :
    ∀ i, i < pk.length →
      idsOf ((assignGlobalIds pk).getD i [])
        = (List.range (pk.getD i []).length).map
            (fun j => ((prefixCount pk i : ℕ) : ℤ) + j) := by
  intro i h
  rw [assignGlobalIds_getD pk i h, idsOf_addPeakOffset, hloc i h]
  simp only [List.map_map]
  refine List.map_congr_left ?_
  intro j _
  simp [Function.comp, add_comm]

/-- Concrete peak table used to instantiate the ID-range theorem: two
keypoint types with 2 and 1 locally numbered candidates. -/
def pkTwoTypes : List (List Peak) :=
  [[{ id := 0, x := 1, y := 2, score := 9 }, { id := 1, x := 3, y := 4, score := 8 }],
   [{ id := 0, x := 5, y := 6, score := 7 }]]

/-- Concrete instantiation of `extractPoses_global_id_ranges`: two peak
lists of sizes 2 and 1 with local ids, checked at every index. -/
theorem extractPoses_global_id_ranges_witness :
    (∀ i, i < pkTwoTypes.length →
      idsOf (pkTwoTypes.getD i [])
        = (List.range (pkTwoTypes.getD i []).length).map (fun j => (j : ℤ)))
    ∧ ∀ i, i < pkTwoTypes.length →
      idsOf ((assignGlobalIds pkTwoTypes).getD i [])
        = (List.range (pkTwoTypes.getD i []).length).map
            (fun j => ((prefixCount pkTwoTypes i : ℕ) : ℤ) + j) :=
  ⟨by decide, extractPoses_global_id_ranges pkTwoTypes (by decide)⟩

theorem rescaleKeypoint_eq (sx sy : ℚ) (kp : ℚ × ℚ) :
    rescaleKeypoint sx sy kp
      = if kp = (-1, -1) then (-1, -1) else (kp.1 * sx, kp.2 * sy) := by
  by_cases h : kp = (-1, -1) <;> simp [rescaleKeypoint, h]

/-- C5: the coordinate-rescaling loop of `postprocess` leaves every sentinel
keypoint `(-1,-1)` exactly `(-1,-1)`, multiplies the coordinates of every
other keypoint by the respective scale factors, and modifies no other field
of the pose (the score is unchanged, and the keypoint count is unchanged). -/
theorem postprocess_rescale_pointwise (sx sy : ℚ) (p : HumanPose) :
    (rescalePose sx sy p).score = p.score
    ∧ (rescalePose sx sy p).keypoints.length = p.keypoints.length
    ∧ ∀ i, i < p.keypoints.length →
        (rescalePose sx sy p).keypoints.getD i (0, 0)
          = if p.keypoints.getD i (0, 0) = (-1, -1) then (-1, -1)
            else ((p.keypoints.getD i (0, 0)).1 * sx, (p.keypoints.getD i (0, 0)).2 * sy) := by
  refine ⟨rfl, by simp [rescalePose], ?_⟩
  intro i h
  have hmap : (rescalePose sx sy p).keypoints.getD i (0, 0)
      = rescaleKeypoint sx sy (p.keypoints.getD i (0, 0)) := by
    simp [rescalePose, List.getD_eq_getElem?_getD, List.getElem?_map,
      List.getElem?_eq_getElem h]
  rw [hmap, rescaleKeypoint_eq]

/-- Concrete pose used to instantiate the rescaling theorem: one sentinel
keypoint and one ordinary keypoint. -/
def poseMixed : HumanPose :=
  { keypoints := [(-1, -1), (2, 3)], score := 5 }

/-- Concrete instantiation of `postprocess_rescale_pointwise` at scale
factors 10 and 100 on a pose holding a sentinel and a real keypoint. -/
theorem postprocess_rescale_pointwise_witness :
    (rescalePose 10 100 poseMixed).score = poseMixed.score
    ∧ (rescalePose 10 100 poseMixed).keypoints.length = poseMixed.keypoints.length
    ∧ ∀ i, i < poseMixed.keypoints.length →
        (rescalePose 10 100 poseMixed).keypoints.getD i (0, 0)
          = if poseMixed.keypoints.getD i (0, 0) = (-1, -1) then (-1, -1)
            else ((poseMixed.keypoints.getD i (0, 0)).1 * 10,
                  (poseMixed.keypoints.getD i (0, 0)).2 * 100) :=
  postprocess_rescale_pointwise 10 100 poseMixed

theorem pushPoses_eq_append (poses result : List HumanPose) :
    pushPoses poses result = result ++ poses := by
  induction poses generalizing result with
  | nil => simp [pushPoses]
  | cons p rest ih => simp [pushPoses] at ih ⊢; rw [ih]; simp

/-- C6: `postprocess` returns the poses in exactly the order `extractPoses`
produced them: the result list is the element-wise rescaling of the input
list, with no sorting or reordering, and the pose at every index `i` of the
result comes from the pose at index `i` of the input. -/
theorem postprocess_preserves_order (sx sy : ℚ) (poses : List HumanPose) :
    postprocessPoses sx sy poses = poses.map (rescalePose sx sy)
    ∧ ∀ i, i < poses.length →
        (postprocessPoses sx sy poses).getD i { keypoints := [], score := 0 }
          = rescalePose sx sy (poses.getD i { keypoints := [], score := 0 }) := by
  have hmain : postprocessPoses sx sy poses = poses.map (rescalePose sx sy) := by
    simp [postprocessPoses, pushPoses_eq_append]
  refine ⟨hmain, ?_⟩
  intro i h
  rw [hmain]
  simp [List.getD_eq_getElem?_getD, List.getElem?_map, List.getElem?_eq_getElem h]

/-- Concrete instantiation of `postprocess_preserves_order` on a two-pose
list at scale factors 2 and 3. -/
theorem postprocess_preserves_order_witness :
    postprocessPoses 2 3 [poseMixed, { keypoints := [(4, 5)], score := 6 }]
        = [poseMixed, { keypoints := [(4, 5)], score := 6 }].map (rescalePose 2 3)
    ∧ ∀ i, i < ([poseMixed, { keypoints := [(4, 5)], score := 6 }] : List HumanPose).length →
        (postprocessPoses 2 3 [poseMixed, { keypoints := [(4, 5)], score := 6 }]).getD i
            { keypoints := [], score := 0 }
          = rescalePose 2 3
              (([poseMixed, { keypoints := [(4, 5)], score := 6 }] : List HumanPose).getD i
                { keypoints := [], score := 0 }) :=
  postprocess_preserves_order 2 3 [poseMixed, { keypoints := [(4, 5)], score := 6 }]

/-! ## Schedule independence of the parallel peak-extraction stage -/

theorem set_getElem?_self {α : Type} (l : List α) (i : ℕ) (a : α) :
    (l.set i a)[i]? = if i < l.length then some a else none := by
  rw [List.getElem?_set_self']
  rcases Nat.lt_or_ge i l.length with h | h
  · simp [List.getElem?_eq_getElem h, h]
  · simp [List.getElem?_eq_none h, Nat.not_lt.mpr h]

theorem writeEach_getElem? {α : Type} (v : ℕ → α) (init : List α) (order : List ℕ) (j : ℕ) :
    (writeEach v init order)[j]?
      = if j ∈ order ∧ j < init.length then some (v j) else init[j]? := by
  induction order generalizing init with
  | nil => simp [writeEach]
  | cons i rest ih =>
    have hstep : writeEach v init (i :: rest) = writeEach v (init.set i (v i)) rest := rfl
    rw [hstep, ih]
    by_cases hji : j = i
    · subst hji
      have hset := set_getElem?_self init j (v j)
      by_cases hl : j < init.length
      · by_cases hr : j ∈ rest <;>
          simp [hr, hl, List.length_set, hset, List.mem_cons]
      · have hnone : init[j]? = none := List.getElem?_eq_none (Nat.le_of_not_lt hl)
        by_cases hr : j ∈ rest <;>
          simp [hr, hl, List.length_set, hset, hnone, List.mem_cons]
    · have hne : (init.set i (v i))[j]? = init[j]? := List.getElem?_set_ne (Ne.symm hji)
      by_cases hr : j ∈ rest <;> by_cases hl : j < init.length <;>
        simp [hr, hl, List.length_set, hne, List.mem_cons, hji]

theorem writeEach_perm {α : Type} (v : ℕ → α) (init : List α) {o1 o2 : List ℕ}
    (h : o1.Perm o2) : writeEach v init o1 = writeEach v init o2 := by
  apply List.ext_getElem?
  intro j
  rw [writeEach_getElem?, writeEach_getElem?]
  by_cases hj : j ∈ o1
  · simp [hj, h.mem_iff.mp hj]
  · have hj2 : j ∉ o2 := fun hh => hj (h.mem_iff.mpr hh)
    simp [hj, hj2]

theorem foldl_stepFindPeaks_heatMaps (f : FindPeaksFn) (mpd ct : ℚ) (order : List ℕ)
    (s : DecoderState) :
    (order.foldl (stepFindPeaks f mpd ct) s).heatMaps = s.heatMaps := by
  induction order generalizing s with
  | nil => rfl
  | cons i rest ih => exact ih (stepFindPeaks f mpd ct s i)

theorem foldl_stepFindPeaks_pafs (f : FindPeaksFn) (mpd ct : ℚ) (order : List ℕ)
    (s : DecoderState) :
    (order.foldl (stepFindPeaks f mpd ct) s).pafs = s.pafs := by
  induction order generalizing s with
  | nil => rfl
  | cons i rest ih => exact ih (stepFindPeaks f mpd ct s i)

theorem foldl_stepFindPeaks_peaks (f : FindPeaksFn) (mpd ct : ℚ) (order : List ℕ)
    (s : DecoderState) :
    (order.foldl (stepFindPeaks f mpd ct) s).peaksFromHeatMap
      = writeEach (fun i => f s.heatMaps mpd i ct) s.peaksFromHeatMap order := by
  induction order generalizing s with
  | nil => rfl
  | cons i rest ih => exact ih (stepFindPeaks f mpd ct s i)

theorem runFindPeaksPar_perm (f : FindPeaksFn) (mpd ct : ℚ) {o1 o2 : List ℕ}
    (h : o1.Perm o2) (s : DecoderState) :
    runFindPeaksPar f mpd ct o1 s = runFindPeaksPar f mpd ct o2 s := by
  apply DecoderState.ext
  · rw [runFindPeaksPar, runFindPeaksPar, foldl_stepFindPeaks_heatMaps,
      foldl_stepFindPeaks_heatMaps]
  · rw [runFindPeaksPar, runFindPeaksPar, foldl_stepFindPeaks_pafs, foldl_stepFindPeaks_pafs]
  · rw [runFindPeaksPar, runFindPeaksPar, foldl_stepFindPeaks_peaks, foldl_stepFindPeaks_peaks]
    exact writeEach_perm _ _ h

/-- C4: determinism of `extractPoses`.  The only scheduling freedom in the
pipeline is the order in which `cv::parallel_for_` runs the per-type peak
extraction tasks; every task writes only its own slot of the peak table.
Hence any two runs on identical maps and identical configuration — even
under different task schedules covering the index range — produce the
identical final state and the identical pose sequence (same number of
poses, same order, equal coordinates and scores). -/
theorem extractPoses_deterministic (f : FindPeaksFn) (g : GroupFn) (ct : ℚ) (K mjn : ℕ)
    (s : DecoderState) (o1 o2 : List ℕ)
    (h1 : o1.Perm (List.range s.heatMaps.length))
    (h2 : o2.Perm (List.range s.heatMaps.length)) :
    extractPosesState f g ct K mjn o1 s = extractPosesState f g ct K mjn o2 s := by
  have hp : o1.Perm o2 := h1.trans h2.symm
  unfold extractPosesState extractPosesStateWith
  rw [runFindPeaksPar_perm f minPeaksDistance ct hp s]

/-- Concrete decoder state used by the determinism and frame theorems: two
1x1 heat maps and two 1x1 PAF maps. -/
def stateTwoMaps : DecoderState :=
  { heatMaps := [⟨1, 1, fun _ _ => 7⟩, ⟨1, 1, fun _ _ => 9⟩],
    pafs := [⟨1, 1, fun _ _ => 1⟩, ⟨1, 1, fun _ _ => 2⟩],
    peaksFromHeatMap := [] }

/-- Concrete per-type extraction function used by the witnesses: one peak
per heat map, carrying the map index. -/
def findPeaksC : FindPeaksFn :=
  fun _ _ i _ => [{ id := (i : ℤ), x := i, y := i, score := 1 }]

/-- Concrete grouping function used by the witnesses: one pose per peak
list, recording the first peak id as the score. -/
def groupC : GroupFn :=
  fun pk _ _ _ _ _ _ =>
    pk.map (fun l => { keypoints := l.map (fun p => (p.x, p.y)),
                       score := ((l.map Peak.id).sum : ℚ) })

/-- Concrete instantiation of `extractPoses_deterministic`: the schedules
`[0, 1]` and `[1, 0]` of the two peak-extraction tasks give identical
results. -/
theorem extractPoses_deterministic_witness :
    extractPosesState findPeaksC groupC (1/10) 2 3 [0, 1] stateTwoMaps
      = extractPosesState findPeaksC groupC (1/10) 2 3 [1, 0] stateTwoMaps :=
  extractPoses_deterministic findPeaksC groupC (1/10) 2 3 stateTwoMaps [0, 1] [1, 0]
    (by decide) (by decide)

/-- C8: `extractPoses` never mutates the heat maps or the PAF maps: in the
final decoder state both map stacks are exactly the input ones — peak
extraction, ID assignment and grouping only read them. -/
theorem extractPoses_preserves_maps (f : FindPeaksFn) (g : GroupFn) (ct : ℚ) (K mjn : ℕ)
    (order : List ℕ) (s : DecoderState) :
    ((extractPosesState f g ct K mjn order s).1).heatMaps = s.heatMaps
    ∧ ((extractPosesState f g ct K mjn order s).1).pafs = s.pafs := by
  unfold extractPosesState extractPosesStateWith stepAssignIds runFindPeaksPar
  constructor
  · exact foldl_stepFindPeaks_heatMaps f minPeaksDistance ct order _
  · exact foldl_stepFindPeaks_pafs f minPeaksDistance ct order _

/-- C9: the tunable constants of the wrapper equal the documented defaults
(3.0, 0.05, 0.8, 0.2), and `extractPoses` passes exactly these values to
peak suppression (`findPeaks`) and to pose grouping
(`groupPeaksToPoses`). -/
theorem extractPoses_default_constants :
    minPeaksDistance = 3
    ∧ midPointsScoreThreshold = 1/20
    ∧ foundMidPointsRatioThreshold = 4/5
    ∧ minSubsetScore = 1/5
    ∧ ∀ (f : FindPeaksFn) (g : GroupFn) (ct : ℚ) (K mjn : ℕ) (order : List ℕ)
        (s : DecoderState),
        extractPosesState f g ct K mjn order s
          = extractPosesStateWith f g ct K 3 (1/20) (4/5) mjn (1/5) order s := by
  have h1 : minPeaksDistance = 3 := by norm_num [minPeaksDistance]
  have h2 : midPointsScoreThreshold = 1/20 := by norm_num [midPointsScoreThreshold]
  have h3 : foundMidPointsRatioThreshold = 4/5 := by norm_num [foundMidPointsRatioThreshold]
  have h4 : minSubsetScore = 1/5 := by norm_num [minSubsetScore]
  refine ⟨h1, h2, h3, h4, ?_⟩
  intro f g ct K mjn order s
  rw [extractPosesState, h1, h2, h3, h4]

/-! ## Model-shape validation (prepareInputsOutputs, lines 46-96, and the
per-image check of preprocess, lines 116-130) -/

/-- The exceptions the wrapper can raise, one constructor per `throw` site:
lines 53, 59, 71, 86, 91, 94 of `prepareInputsOutputs`/helpers and line 121
of `preprocess`. -/
inductive PrepError where
  | oneInputExpected
  | inputShapeBad
  | twoOutputsExpected
  | heatmapShapeBad
  | pafShapeBad
  | mapsDimsMismatch
  | aspectNotFit
deriving DecidableEq, Repr

/-- Effect of `changeInputSize` on the input shape (lines 107-109): entries
0, 2 and 3 are overwritten with 1 and the computed height/width; rank and
channel count are untouched. -/
def reshapedInput (s : List ℕ) (netH netW : ℕ) : List ℕ :=
  ((s.set 0 1).set 2 netH).set 3 netW

/-- Validation sequence of `prepareInputsOutputs` in source order: exactly
one input (line 52); 4-dimensional 1x3xHxW input (line 58, read after the
reshape); exactly two outputs (line 70); heatmap output `1x(K+1)xHFMxWFM`
(line 85); PAF output `1x2(K+1)xHFMxWFM` (line 90); and matching last two
dimensions of the two outputs (line 93). -/
def prepareInputsOutputs (K netH netW : ℕ)
    (inputShapes outputShapes : List (List ℕ)) : Except PrepError Unit :=
  if inputShapes.length ≠ 1 then .error PrepError.oneInputExpected
  else
    if ¬ ((reshapedInput (inputShapes.getD 0 []) netH netW).length = 4
          ∧ (reshapedInput (inputShapes.getD 0 []) netH netW).getD 0 0 = 1
          ∧ (reshapedInput (inputShapes.getD 0 []) netH netW).getD 1 0 = 3) then
      .error PrepError.inputShapeBad
    else if outputShapes.length ≠ 2 then .error PrepError.twoOutputsExpected
    else if ¬ ((outputShapes.getD 0 []).length = 4
          ∧ (outputShapes.getD 0 []).getD 0 0 = 1
          ∧ (outputShapes.getD 0 []).getD 1 0 = K + 1) then
      .error PrepError.heatmapShapeBad
    else if ¬ ((outputShapes.getD 1 []).length = 4
          ∧ (outputShapes.getD 1 []).getD 0 0 = 1
          ∧ (outputShapes.getD 1 []).getD 1 0 = 2 * (K + 1)) then
      .error PrepError.pafShapeBad
    else if (outputShapes.getD 1 []).getD 2 0 ≠ (outputShapes.getD 0 []).getD 2 0
          ∨ (outputShapes.getD 1 []).getD 3 0 ≠ (outputShapes.getD 0 []).getD 3 0 then
      .error PrepError.mapsDimsMismatch
    else .ok ()

/-- Facts available about every model `prepareInputsOutputs` accepts,
read off the guards of the validation sequence. -/
theorem prepare_ok_facts (K netH netW : ℕ) (ins outs : List (List ℕ))
    (hok : prepareInputsOutputs K netH netW ins outs = .ok ()) :
    outs.length = 2
    ∧ (outs.getD 0 []).getD 1 0 = K + 1
    ∧ (outs.getD 1 []).getD 1 0 = 2 * (K + 1)
    ∧ (outs.getD 1 []).getD 2 0 = (outs.getD 0 []).getD 2 0
    ∧ (outs.getD 1 []).getD 3 0 = (outs.getD 0 []).getD 3 0 := by
  unfold prepareInputsOutputs at hok
  split_ifs at hok with h1 h2 h3 h4 h5 h6
  push_neg at h1 h3 h6
  exact ⟨h3, h4.2.2, h5.2.2, h6.1, h6.2⟩

/-- C2: a model whose heatmap output and PAF output disagree in either of
the last two dimensions is rejected by `prepareInputsOutputs` with an
exception, before any image data is processed. -/
theorem prepare_rejects_mismatched_maps (K netH netW : ℕ) (inputShapes : List (List ℕ))
    (heat paf : List ℕ)
    (hmis : heat.getD 2 0 ≠ paf.getD 2 0 ∨ heat.getD 3 0 ≠ paf.getD 3 0) :
    ∃ e, prepareInputsOutputs K netH netW inputShapes [heat, paf] = .error e := by
  cases hres : prepareInputsOutputs K netH netW inputShapes [heat, paf] with
  | error e => exact ⟨e, rfl⟩
  | ok u =>
    exfalso
    cases u
    obtain ⟨-, -, -, hd2, hd3⟩ :=
      prepare_ok_facts K netH netW inputShapes [heat, paf] hres
    simp only [List.getD_cons_zero, List.getD_cons_succ] at hd2 hd3
    rcases hmis with hm | hm
    · exact hm hd2.symm
    · exact hm hd3.symm

/-- Concrete instantiation of `prepare_rejects_mismatched_maps`: two
outputs with heights 5 and 6. -/
theorem prepare_rejects_mismatched_maps_witness :
    (([1, 2, 5, 5] : List ℕ).getD 2 0 ≠ ([1, 4, 6, 5] : List ℕ).getD 2 0
        ∨ ([1, 2, 5, 5] : List ℕ).getD 3 0 ≠ ([1, 4, 6, 5] : List ℕ).getD 3 0)
    ∧ ∃ e, prepareInputsOutputs 1 4 4 [[1, 3, 16, 16]] [[1, 2, 5, 5], [1, 4, 6, 5]]
        = .error e :=
  ⟨by decide, prepare_rejects_mismatched_maps 1 4 4 [[1, 3, 16, 16]] [1, 2, 5, 5]
    [1, 4, 6, 5] (by decide)⟩

/-- Decidable equality for `Except` results, so concrete validation
outcomes can be computed inside proofs. -/
instance {ε α : Type} [DecidableEq ε] [DecidableEq α] : DecidableEq (Except ε α) :=
  fun a b =>
  match a, b with
  | .ok u, .ok v =>
    if h : u = v then Decidable.isTrue (by rw [h])
    else Decidable.isFalse (by intro hc; cases hc; exact h rfl)
  | .error e, .error e' =>
    if h : e = e' then Decidable.isTrue (by rw [h])
    else Decidable.isFalse (by intro hc; cases hc; exact h rfl)
  | .ok _, .error _ => Decidable.isFalse (by intro hc; cases hc)
  | .error _, .ok _ => Decidable.isFalse (by intro hc; cases hc)

/-- C7: `prepareInputsOutputs` accepts a model only if it has exactly two
outputs, the heatmap output has exactly `K + 1` channels and the PAF output
has exactly `2 * (K + 1)` channels; violating any of these counts yields an
exception (the contrapositive), raised before any inference. -/
theorem prepare_accepts_only_matching_channels (K netH netW : ℕ)
    (inputShapes outputShapes : List (List ℕ))
    (hok : prepareInputsOutputs K netH netW inputShapes outputShapes = .ok ()) :
    outputShapes.length = 2
    ∧ (outputShapes.getD 0 []).getD 1 0 = K + 1
    ∧ (outputShapes.getD 1 []).getD 1 0 = 2 * (K + 1) := by
  obtain ⟨hlen, hheat, hpaf, -, -⟩ := prepare_ok_facts K netH netW inputShapes outputShapes hok
  exact ⟨hlen, hheat, hpaf⟩

/-- Concrete instantiation of `prepare_accepts_only_matching_channels`: an
accepted model with `K = 1`, 2 heatmap channels and 4 PAF channels. -/
theorem prepare_accepts_only_matching_channels_witness :
    prepareInputsOutputs 1 4 4 [[1, 3, 16, 16]] [[1, 2, 5, 5], [1, 4, 5, 5]] = .ok ()
    ∧ ([[1, 2, 5, 5], [1, 4, 5, 5]] : List (List ℕ)).length = 2
    ∧ (([[1, 2, 5, 5], [1, 4, 5, 5]] : List (List ℕ)).getD 0 []).getD 1 0 = 1 + 1
    ∧ (([[1, 2, 5, 5], [1, 4, 5, 5]] : List (List ℕ)).getD 1 []).getD 1 0 = 2 * (1 + 1) :=
  ⟨by decide, prepare_accepts_only_matching_channels 1 4 4 [[1, 3, 16, 16]]
    [[1, 2, 5, 5], [1, 4, 5, 5]] (by decide)⟩

/-- Modelled from the spec: the image-resizing collaborator
(`resizeImageExt`, declared out of scope by the spec and absent from the
provided sources) hands `preprocess` a region of interest covering the
resized image inside the padded network input; its width enters the model
as the explicit parameter `roiWidth`.  `preprocess` (lines 120-121) throws
when the network input is narrower than that ROI. -/
def preprocessCheck (inputLayerWidth roiWidth : ℤ) : Except PrepError Unit :=
  if inputLayerWidth < roiWidth then .error PrepError.aspectNotFit else .ok ()

/-- The whole pipeline invocation on one image: model-shape validation,
per-image preprocessing, then the pure decode (extract and rescale). -/
def pipelineRun (K netH netW : ℕ) (inputShapes outputShapes : List (List ℕ))
    (inputLayerWidth roiWidth : ℤ) (f : FindPeaksFn) (g : GroupFn) (ct : ℚ) (mjn : ℕ)
    (order : List ℕ) (s : DecoderState) (sx sy : ℚ) : Except PrepError (List HumanPose) :=
  (prepareInputsOutputs K netH netW inputShapes outputShapes).bind fun _ =>
    (preprocessCheck inputLayerWidth roiWidth).bind fun _ =>
      .ok (postprocessPoses sx sy (extractPosesState f g ct K mjn order s).2)

/-- Counterexample to C3: a pipeline input whose map shapes pass every
shape precondition of `prepareInputsOutputs`, yet the pipeline throws — in
`preprocess`, because the resized image ROI (width 9) is wider than the
network input (width 8).  Hence a failed map-shape precondition is not the
only fatal condition. -/
theorem pipeline_throw_beyond_shape_checks :
    pipelineRun 1 4 4 [[1, 3, 16, 16]] [[1, 2, 5, 5], [1, 4, 5, 5]] 8 9 findPeaksC groupC
        (1/10) 3 [0, 1] stateTwoMaps 2 3 = .error PrepError.aspectNotFit
    ∧ prepareInputsOutputs 1 4 4 [[1, 3, 16, 16]] [[1, 2, 5, 5], [1, 4, 5, 5]] = .ok () := by
  constructor <;> decide

/-- Amended C3: the pipeline throws only at its precondition checks — the
map-shape checks of `prepareInputsOutputs` plus the per-image
aspect-ratio check of `preprocess`; whenever the map shapes satisfy the
shape preconditions and the resized image ROI fits the network input
width, no stage of the pipeline throws and the decoded poses are
returned. -/
theorem pipeline_ok_when_preconditions_hold (K netH netW : ℕ)
    (inputShapes outputShapes : List (List ℕ)) (inputLayerWidth roiWidth : ℤ)
    (f : FindPeaksFn) (g : GroupFn) (ct : ℚ) (mjn : ℕ) (order : List ℕ) (s : DecoderState)
    (sx sy : ℚ)
    (hok : prepareInputsOutputs K netH netW inputShapes outputShapes = .ok ())
    (hroi : roiWidth ≤ inputLayerWidth) :
    pipelineRun K netH netW inputShapes outputShapes inputLayerWidth roiWidth f g ct mjn
        order s sx sy
      = .ok (postprocessPoses sx sy (extractPosesState f g ct K mjn order s).2) := by
  unfold pipelineRun
  rw [hok]
  unfold preprocessCheck
  rw [if_neg (not_lt.mpr hroi)]
  rfl

/-- Concrete instantiation of `pipeline_ok_when_preconditions_hold`:
accepted model shapes and an ROI of width 7 inside a network input of
width 8. -/
theorem pipeline_ok_when_preconditions_hold_witness :
    prepareInputsOutputs 1 4 4 [[1, 3, 16, 16]] [[1, 2, 5, 5], [1, 4, 5, 5]] = .ok ()
    ∧ (7 : ℤ) ≤ 8
    ∧ pipelineRun 1 4 4 [[1, 3, 16, 16]] [[1, 2, 5, 5], [1, 4, 5, 5]] 8 7 findPeaksC groupC
        (1/10) 3 [0, 1] stateTwoMaps 2 3
      = .ok (postprocessPoses 2 3
          (extractPosesState findPeaksC groupC (1/10) 1 3 [0, 1] stateTwoMaps).2) :=
  ⟨by decide, by decide,
    pipeline_ok_when_preconditions_hold 1 4 4 [[1, 3, 16, 16]] [[1, 2, 5, 5], [1, 4, 5, 5]]
      8 7 findPeaksC groupC (1/10) 3 [0, 1] stateTwoMaps 2 3 (by decide) (by decide)⟩

/-! ## Input-size negotiation (changeInputSize, lines 98-114) -/

/-- Statement helper: `v` is the least multiple of `s` that is at least
`a`. -/
def IsLeastMultipleGE (s a v : ℤ) : Prop :=
  s ∣ v ∧ a ≤ v ∧ ∀ m : ℤ, s ∣ m → a ≤ m → v ≤ m

/-- The `if (!targetSize) targetSize = inputShape[2];` replacement of
lines 101-103. -/
def effectiveTarget (targetSize0 origHeight : ℤ) : ℤ :=
  if targetSize0 = 0 then origHeight else targetSize0

/-- The rounding-up-to-a-stride-multiple pattern
`(x + stride - 1) / stride * stride` of lines 104 and 106. -/
def ceilToStride (a s : ℤ) : ℤ :=
  (a + s - 1) / s * s

/-- Model of `changeInputSize` (lines 98-114): effective target size after
the zero replacement, network input height, and network input width
computed from `round(targetSize * aspectRatio)`. -/
def changeInputSize (targetSize0 : ℤ) (aspectRatio : ℚ) (stride origHeight : ℤ) :
    ℤ × ℤ × ℤ :=
  (effectiveTarget targetSize0 origHeight,
   ceilToStride (effectiveTarget targetSize0 origHeight) stride,
   ceilToStride (round ((effectiveTarget targetSize0 origHeight : ℚ) * aspectRatio)) stride)

theorem ceilToStride_isLeast (a s : ℤ) (hs : 0 < s) :
    IsLeastMultipleGE s a (ceilToStride a s) := by
  have hs0 : s ≠ 0 := ne_of_gt hs
  have hqr : s * ((a + s - 1) / s) + (a + s - 1) % s = a + s - 1 :=
    Int.ediv_add_emod (a + s - 1) s
  have hr0 : 0 ≤ (a + s - 1) % s := Int.emod_nonneg _ hs0
  have hrs : (a + s - 1) % s < s := Int.emod_lt_of_pos _ hs
  refine ⟨dvd_mul_left s _, ?_, ?_⟩
  · have : a ≤ s * ((a + s - 1) / s) := by linarith
    calc a ≤ s * ((a + s - 1) / s) := this
    _ = (a + s - 1) / s * s := mul_comm _ _
  · intro m hm ham
    obtain ⟨k, hk⟩ := hm
    have hlt : s * ((a + s - 1) / s) < s * (k + 1) := by
      rw [mul_add, mul_one]
      linarith [hk ▸ ham]
    have hq : (a + s - 1) / s < k + 1 := lt_of_mul_lt_mul_left hlt hs.le
    have hq' : (a + s - 1) / s ≤ k := Int.lt_add_one_iff.mp hq
    calc ceilToStride a s = (a + s - 1) / s * s := rfl
    _ ≤ k * s := mul_le_mul_of_nonneg_right hq' hs.le
    _ = m := by rw [hk, mul_comm]

/-- C10: under a positive stride, a nonnegative requested target size and a
positive original model input height, `changeInputSize` replaces a zero
target size by the original input height (and keeps a nonzero one), makes
the network height the smallest stride multiple at least the effective
target size, makes the network width the smallest stride multiple at least
`round(targetSize * aspectRatio)`, and the resulting height is positive —
in particular a zero target size never yields a zero-height input. -/
theorem changeInputSize_spec (targetSize0 : ℤ) (aspectRatio : ℚ) (stride origHeight : ℤ)
    (hs : 0 < stride) (ht : 0 ≤ targetSize0) (hh : 0 < origHeight) :
    (targetSize0 = 0 →
      (changeInputSize targetSize0 aspectRatio stride origHeight).1 = origHeight)
    ∧ (targetSize0 ≠ 0 →
      (changeInputSize targetSize0 aspectRatio stride origHeight).1 = targetSize0)
    ∧ IsLeastMultipleGE stride (changeInputSize targetSize0 aspectRatio stride origHeight).1
        (changeInputSize targetSize0 aspectRatio stride origHeight).2.1
    ∧ IsLeastMultipleGE stride
        (round (((changeInputSize targetSize0 aspectRatio stride origHeight).1 : ℚ)
          * aspectRatio))
        (changeInputSize targetSize0 aspectRatio stride origHeight).2.2
    ∧ 0 < (changeInputSize targetSize0 aspectRatio stride origHeight).2.1 := by
  have htpos : 0 < effectiveTarget targetSize0 origHeight := by
    unfold effectiveTarget
    split_ifs with h0
    · exact hh
    · exact lt_of_le_of_ne ht (Ne.symm h0)
  have hH := ceilToStride_isLeast (effectiveTarget targetSize0 origHeight) stride hs
  have hW := ceilToStride_isLeast
    (round ((effectiveTarget targetSize0 origHeight : ℚ) * aspectRatio)) stride hs
  refine ⟨fun h0 => by simp [changeInputSize, effectiveTarget, h0],
         fun h0 => by simp [changeInputSize, effectiveTarget, h0],
         hH, hW, ?_⟩
  exact lt_of_lt_of_le htpos hH.2.1

/-- Concrete instantiation of `changeInputSize_spec`: stride 8, requested
target size 0, original input height 5 and aspect ratio 1. -/
theorem changeInputSize_spec_witness :
    (0 : ℤ) < 8 ∧ (0 : ℤ) ≤ 0 ∧ (0 : ℤ) < 5
    ∧ ((0 : ℤ) = 0 → (changeInputSize 0 1 8 5).1 = 5)
    ∧ ((0 : ℤ) ≠ 0 → (changeInputSize 0 1 8 5).1 = 0)
    ∧ IsLeastMultipleGE 8 (changeInputSize 0 1 8 5).1 (changeInputSize 0 1 8 5).2.1
    ∧ IsLeastMultipleGE 8 (round (((changeInputSize 0 1 8 5).1 : ℚ) * 1))
        (changeInputSize 0 1 8 5).2.2
    ∧ 0 < (changeInputSize 0 1 8 5).2.1 :=
  ⟨by decide, by decide, by decide,
    (changeInputSize_spec 0 1 8 5 (by decide) (by decide) (by decide)).1,
    (changeInputSize_spec 0 1 8 5 (by decide) (by decide) (by decide)).2.1,
    (changeInputSize_spec 0 1 8 5 (by decide) (by decide) (by decide)).2.2.1,
    (changeInputSize_spec 0 1 8 5 (by decide) (by decide) (by decide)).2.2.2.1,
    (changeInputSize_spec 0 1 8 5 (by decide) (by decide) (by decide)).2.2.2.2⟩

end HPE
